import Mathlib

/-!
Shallow embedding of the coverage cache and row-count estimator of the
`csv-table` repository (`src/cache.ts`, with the row-status walk of the
newer variant of the same file).

Byte offsets and counts are validated non-negative integers in the source
(`checkNonNegativeInteger`), so they are modelled as `Nat`.  The average
row byte count is a JavaScript number produced by division; it is modelled
as `ℚ` with exact arithmetic.  `Math.round` rounds half toward positive
infinity, modelled by `jround`.  Methods that can `throw` return `Except`;
`CSVCache.store` additionally carries in its error value the cache state
at the moment of the throw, mirroring the mutation order of the source,
so that atomicity on error is a provable statement rather than a
convention of the embedding.
-/

namespace CsvTable

/-- JavaScript `Math.round`: round half toward positive infinity. -/
def jround (q : ℚ) : Int := ⌊q + 1 / 2⌋

/-- Cache of parsed rows (`RowsCache` in `cache.ts`): the stored cell
arrays, in order, and the total byte count of the stored rows. -/
structure RowsCache where
  rows : List (List String)
  byteCount : Nat
  deriving DecidableEq

/-- Embeds `RowsCache.numRows`: number of stored rows. -/
def RowsCache.numRows (rc : RowsCache) : Nat := rc.rows.length

/-- Embeds `RowsCache.append`: push the cells at the end, add the byte count. -/
def RowsCache.append (rc : RowsCache) (cells : List String) (byteCount : Nat) : RowsCache :=
  { rows := rc.rows ++ [cells], byteCount := rc.byteCount + byteCount }

/-- Embeds `RowsCache.prepend`: insert the cells at the front, add the byte count. -/
def RowsCache.prepend (rc : RowsCache) (cells : List String) (byteCount : Nat) : RowsCache :=
  { rows := cells :: rc.rows, byteCount := rc.byteCount + byteCount }

/-- Embeds `RowsCache.merge`: concatenate the other cache's rows after this one's. -/
def RowsCache.merge (rc other : RowsCache) : RowsCache :=
  { rows := rc.rows ++ other.rows, byteCount := rc.byteCount + other.byteCount }

/-- Argument of `CSVCache.store` / `CSVRange.append` / `CSVRange.prepend`:
a parsed row with its byte span; `cells = none` is an ignored row (empty
line or header) whose bytes advance coverage without being stored. -/
structure Row where
  byteOffset : Nat
  byteCount : Nat
  cells : Option (List String)
  deriving DecidableEq

/-- A contiguous byte range of the CSV file with its parsed rows
(`CSVRange` in `cache.ts`). -/
structure CSVRange where
  firstByte : Nat
  byteCount : Nat
  rowsCache : RowsCache
  deriving DecidableEq

/-- Embeds `new CSVRange({firstByte})`: empty range anchored at `firstByte`. -/
def CSVRange.init (firstByte : Nat) : CSVRange :=
  { firstByte := firstByte, byteCount := 0, rowsCache := { rows := [], byteCount := 0 } }

/-- Embeds `CSVRange.nextByte`: first byte after the range. -/
def CSVRange.nextByte (r : CSVRange) : Nat := r.firstByte + r.byteCount

/-- Embeds `CSVRange.append`: extend the span forward; requires contiguity. -/
def CSVRange.append (r : CSVRange) (row : Row) : Except String CSVRange :=
  if row.byteOffset ≠ r.firstByte + r.byteCount then
    .error "Cannot append the row: it is not contiguous with the last row"
  else
    let r' := { r with byteCount := row.byteOffset + row.byteCount - r.firstByte }
    match row.cells with
    | some cells => .ok { r' with rowsCache := r'.rowsCache.append cells row.byteCount }
    | none => .ok r'

/-- Embeds `CSVRange.prepend`: extend the span backward; requires contiguity. -/
def CSVRange.prepend (r : CSVRange) (row : Row) : Except String CSVRange :=
  if row.byteOffset + row.byteCount ≠ r.firstByte then
    .error "Cannot prepend the row: it is not contiguous with the first row"
  else
    let r' := { r with firstByte := row.byteOffset, byteCount := r.byteCount + row.byteCount }
    match row.cells with
    | some cells => .ok { r' with rowsCache := r'.rowsCache.prepend cells row.byteCount }
    | none => .ok r'

/-- Embeds `CSVRange.merge`: absorb an immediately following range. -/
def CSVRange.mergeRange (r following : CSVRange) : Except String CSVRange :=
  if r.nextByte ≠ following.firstByte then
    .error "Cannot merge ranges: not contiguous"
  else
    .ok { r with byteCount := r.byteCount + following.byteCount,
                 rowsCache := r.rowsCache.merge following.rowsCache }

/-- Embeds `CSVRange.getRow`: cells of the row at a local index; JavaScript array
indexing yields `undefined` for negative or out-of-bounds indices. -/
def CSVRange.getRow (r : CSVRange) (i : Int) : Option (List String) :=
  if i < 0 then none else r.rowsCache.rows.get? i.toNat

/-- Cache of a remote CSV file (`CSVCache` in `cache.ts`). -/
structure CSVCache where
  byteLength : Nat
  columnNames : List String
  headerByteCount : Nat
  serial : CSVRange
  random : List CSVRange
  delimiter : String
  newline : String
  deriving DecidableEq

/-- The `CSVCache` constructor: validates the column names and the header
byte count, and seeds the serial range with the header bytes as an
ignored span `[0, headerByteCount)`. -/
def mkCSVCache (columnNames : List String) (headerByteCount byteLength : Nat)
    (delimiter newline : String) : Except String CSVCache :=
  if columnNames = [] then
    .error "Cannot create CSVCache: no column names provided"
  else if byteLength < headerByteCount then
    .error "Initial byte count exceeds byte length"
  else
    match (CSVRange.init 0).append { byteOffset := 0, byteCount := headerByteCount, cells := none } with
    | .error m => .error m
    | .ok serial =>
      .ok { byteLength := byteLength, columnNames := columnNames,
            headerByteCount := headerByteCount, serial := serial, random := [],
            delimiter := delimiter, newline := newline }

/-- The `complete` getter: defensively checks the internal consistency of
the cache, then reports whether the serial range reaches the end of the
file. -/
def CSVCache.completeE (c : CSVCache) : Except String Bool :=
  if c.byteLength < c.serial.nextByte then
    .error "Inconsistent state: serial range exceeds the file length"
  else if c.serial.nextByte = c.byteLength ∧ c.random ≠ [] then
    .error "Inconsistent state: serial range covers the entire file, but there are random ranges"
  else
    .ok (c.serial.nextByte == c.byteLength)

/-- The loop body of `CSVCache.store`: walk the ranges as adjacent
`(left, right)` pairs (`rest` holds the ranges after `left`; its head is
the current `right`, an empty `rest` is the `undefined` right range).
Returns the updated `(left, rest)` and whether the row was newly stored;
an error carries the `(left, rest)` state at the moment of the throw. -/
def storeAux (left : CSVRange) (rest : List CSVRange) (row : Row) :
    Except (String × CSVRange × List CSVRange) (CSVRange × List CSVRange × Bool) :=
  if row.byteOffset < left.firstByte then
    .error ("Inconsistent state: row is before the left range", left, rest)
  else if row.byteOffset < left.nextByte then
    if left.nextByte < row.byteOffset + row.byteCount then
      .error ("Cannot store the row: the first bytes are already cached, but not the last ones.",
        left, rest)
    else
      .ok (left, rest, false)
  else
    match rest with
    | right :: rest' =>
      if right.firstByte ≤ row.byteOffset then
        match storeAux right rest' row with
        | .ok (l', r', b) => .ok (left, l' :: r', b)
        | .error (m, l', r') => .error (m, left, l' :: r')
      else if right.firstByte < row.byteOffset + row.byteCount then
        .error ("Cannot store the row: the first bytes are not cached, but other bytes are already cached.",
          left, rest)
      else if row.byteOffset = left.nextByte then
        match left.append row with
        | .error m => .error (m, left, right :: rest')
        | .ok left' =>
          if left'.nextByte = right.firstByte then
            match left'.mergeRange right with
            | .error m => .error (m, left', right :: rest')
            | .ok merged => .ok (merged, rest', true)
          else
            .ok (left', right :: rest', true)
      else if row.byteOffset + row.byteCount = right.firstByte then
        match right.prepend row with
        | .error m => .error (m, left, right :: rest')
        | .ok right' => .ok (left, right' :: rest', true)
      else
        match (CSVRange.init row.byteOffset).append row with
        | .error m => .error (m, left, right :: rest')
        | .ok newRange => .ok (left, newRange :: right :: rest', true)
    | [] =>
      if row.byteOffset = left.nextByte then
        match left.append row with
        | .error m => .error (m, left, [])
        | .ok left' => .ok (left', [], true)
      else
        match (CSVRange.init row.byteOffset).append row with
        | .error m => .error (m, left, [])
        | .ok newRange => .ok (left, [newRange], true)

/-- Embeds `CSVCache.store`: store a new row.  Returns the updated cache and
`true` if the row was newly stored, `false` if its byte range was already
cached (a no-op).  An error carries the cache state at the moment of the
throw. -/
def CSVCache.store (c : CSVCache) (row : Row) : Except (String × CSVCache) (CSVCache × Bool) :=
  if c.byteLength < row.byteOffset + row.byteCount then
    .error ("Cannot store the row: byte range is out of bounds", c)
  else
    match storeAux c.serial c.random row with
    | .ok (s', r', b) => .ok ({ c with serial := s', random := r' }, b)
    | .error (m, s', r') => .error (m, { c with serial := s', random := r' })

/-- Cache states reachable from the constructor by sequences of
successful `store` calls. -/
inductive Reachable : CSVCache → Prop
  | init (columnNames : List String) (headerByteCount byteLength : Nat)
      (delimiter newline : String) (c : CSVCache) :
      mkCSVCache columnNames headerByteCount byteLength delimiter newline = .ok c →
      Reachable c
  | store (c : CSVCache) (row : Row) (c' : CSVCache) (b : Bool) :
      Reachable c → c.store row = .ok (c', b) → Reachable c'

/-- Embeds `CSVCache.#computeNumCachedRows` (a private helper of `Estimator` in
the source, reading only the cache): total number of stored rows. -/
def CSVCache.computeNumCachedRows (c : CSVCache) : Nat :=
  c.serial.rowsCache.numRows + c.random.foldl (fun sum range => sum + range.rowsCache.numRows) 0

/-- Embeds `Estimator.#computeNumCachedBytes`: total byte count of stored rows. -/
def CSVCache.computeNumCachedBytes (c : CSVCache) : Nat :=
  c.serial.rowsCache.byteCount + c.random.foldl (fun sum range => sum + range.rowsCache.byteCount) 0

/-- The `Estimator` over a cache: `averageRowByteCount = none` is the
`undefined` sentinel (cache complete, count exact); the constructor
initialises it to `0`. -/
structure Estimator where
  cache : CSVCache
  averageRowByteCount : Option ℚ
  deriving DecidableEq

/-- Embeds `new Estimator({cache})`: the average row byte count starts at `0`. -/
def Estimator.init (cache : CSVCache) : Estimator :=
  { cache := cache, averageRowByteCount := some 0 }

/-- Embeds `Estimator.numRows`: `0` when the average is `0`, the exact stored
count when the average is the `undefined` sentinel, else
`round((byteLength - headerByteCount) / average)`. -/
def Estimator.numRows (e : Estimator) : Int :=
  match e.averageRowByteCount with
  | none => (e.cache.computeNumCachedRows : Int)
  | some a =>
    if a = 0 then 0
    else jround (((e.cache.byteLength : ℚ) - (e.cache.headerByteCount : ℚ)) / a)

/-- Embeds `Estimator.isNumRowsEstimated`: true while the average sentinel is
not `undefined`. -/
def Estimator.isNumRowsEstimated (e : Estimator) : Bool :=
  e.averageRowByteCount.isSome

/-- Embeds `Estimator.getRowNumber`: `{value: row}` for `0 ≤ row < numRows`,
else `undefined`. -/
def Estimator.getRowNumber (e : Estimator) (row : Int) : Option Int :=
  if 0 ≤ row ∧ row < e.numRows then some row else none

/-- Embeds `Estimator.refresh`: recompute the average row byte count; switch to
the exact sentinel when the cache is complete; otherwise commit the new
average only when the previous one was zero or the relative change
exceeds 1%. -/
def Estimator.refresh (e : Estimator) : Except String (Estimator × Bool) :=
  let numCachedBytes := e.cache.computeNumCachedBytes
  let numCachedRows := e.cache.computeNumCachedRows
  match e.cache.completeE with
  | .error m => .error m
  | .ok complete =>
    if complete then
      match e.averageRowByteCount with
      | none => .ok (e, false)
      | some _ => .ok ({ e with averageRowByteCount := none }, true)
    else
      match e.averageRowByteCount with
      | none => .error "Incoherent state: the cache state cannot go from complete to incomplete"
      | some old =>
        if numCachedRows = 0 then
          .ok (e, false)
        else
          let averageRowByteCount : ℚ := (numCachedBytes : ℚ) / (numCachedRows : ℚ)
          if old = 0 ∨ 1 / 100 < |averageRowByteCount - old| / old then
            .ok ({ e with averageRowByteCount := some averageRowByteCount }, true)
          else
            .ok (e, false)

/-- The row status returned by `Estimator.getStatus` (the tagged variant
of the newer `cache.ts`): `stored` carries the range, its cells and the
(possibly estimated) first row of the range; `missing` carries the
enclosing ranges and the (possibly estimated) byte offset. -/
inductive RowStatus where
  | stored (range : CSVRange) (cells : List String) (firstRangeRow : Int) (isEstimate : Bool)
  | missing (leftRange : CSVRange) (rightRange : Option CSVRange) (byteOffset : Int)
      (isEstimate : Bool)
  | beyondEOF (isEstimate : Bool)
  | unknown
  deriving DecidableEq

/-- The first-row index attributed to the right range during the
`getStatus` walk: the authoritative `numRows` at the end of the file;
`numRows` minus the range's own row count when `snapEOFToNumRows` is set
and the range reaches the file's last byte (within the 1-byte hotfix
buffer); else estimated from the byte gap after the left range. -/
def Estimator.rightFirstRowOf (e : Estimator) (snap : Bool) (leftNextRow : Int)
    (leftRange : CSVRange) (avg : ℚ) (rest : List CSVRange) : Int :=
  match rest with
  | [] => e.numRows
  | r :: _ =>
    if snap = true ∧ (e.cache.byteLength : Int) - 1 ≤ (r.nextByte : Int)
        ∧ 0 < r.rowsCache.numRows then
      e.numRows - (r.rowsCache.numRows : Int)
    else
      leftNextRow + jround (((r.firstByte : ℚ) - (leftRange.nextByte : ℚ)) / avg)

/-- The loop body of `Estimator.getStatus`: walk the ranges as adjacent
`(left, right)` pairs, carrying the (possibly estimated) first row of the
left range. -/
def Estimator.getStatusAux (e : Estimator) (snap : Bool) (row : Nat) (leftRange : CSVRange)
    (leftFirstRow : Int) (leftIsEstimate : Bool) (rest : List CSVRange) :
    Except String RowStatus :=
  let leftNextRow : Int := leftFirstRow + (leftRange.rowsCache.numRows : Int)
  if (row : Int) < leftNextRow then
    match leftRange.getRow ((row : Int) - leftFirstRow) with
    | none => .error "Incoherent state: the range should contain at least one row"
    | some cells => .ok (.stored leftRange cells leftFirstRow leftIsEstimate)
  else if (row : Int) = leftNextRow then
    .ok (.missing leftRange rest.head? (leftRange.nextByte : Int) false)
  else
    match e.averageRowByteCount with
    | none => .error "Incoherent state: the cache is complete, we should have returned earlier."
    | some avg =>
      if avg = 0 then
        .ok .unknown
      else
        let rightFirstRow := e.rightFirstRowOf snap leftNextRow leftRange avg rest
        if (row : Int) < rightFirstRow then
          .ok (.missing leftRange rest.head?
            ((leftRange.nextByte : Int) + jround (((row : ℚ) - (leftNextRow : ℚ)) * avg)) true)
        else
          match rest with
          | [] => .error "Incoherent state: this point should not be reachable"
          | r :: rest' => e.getStatusAux snap row r rightFirstRow true rest'

/-- Embeds `Estimator.getStatus`: status of a row index; `beyond-eof` when the
index is at or past a positive `numRows`, else the pair walk. -/
def Estimator.getStatus (e : Estimator) (row : Nat) (snap : Bool) : Except String RowStatus :=
  if 0 < e.numRows ∧ e.numRows ≤ (row : Int) then
    .ok (.beyondEOF e.isNumRowsEstimated)
  else
    e.getStatusAux snap row e.cache.serial 0 false e.cache.random

/-- Embeds `Estimator.#guessRowNumberInRandomRange` (older variant of
`cache.ts`): estimated row number at a byte offset. -/
def Estimator.guessRowNumberInRandomRange (e : Estimator) (byteOffset : Nat) :
    Except String (Option Int) :=
  match e.averageRowByteCount with
  | none =>
    .error "Incoherent state: cannot guess row number in random range when the cache is complete"
  | some a =>
    if a = 0 then .ok none
    else .ok (some (max (jround (((byteOffset : ℚ) - (e.cache.headerByteCount : ℚ)) / a)) 0))

/-- The loop of `Estimator.#getCells` (older variant of `cache.ts`):
search the random ranges in reverse order; the index `idx` is `0` for the
last range, which may snap its first row to the end of the file. -/
def Estimator.getCellsAux (e : Estimator) (row : Nat) (idx : Nat) :
    List CSVRange → Except String (Option (List String))
  | [] => .ok none
  | range :: revRest =>
    let estimatedFirstRowE : Except String (Option Int) :=
      if idx = 0 ∧ (e.cache.byteLength : Int) - 1 ≤ (range.nextByte : Int)
          ∧ 0 < range.rowsCache.numRows then
        .ok (some (e.numRows - (range.rowsCache.numRows : Int)))
      else
        e.guessRowNumberInRandomRange range.firstByte
    match estimatedFirstRowE with
    | .error m => .error m
    | .ok none => .ok none
    | .ok (some estimatedFirstRow) =>
      match range.getRow ((row : Int) - estimatedFirstRow) with
      | some cells => .ok (some cells)
      | none => e.getCellsAux row (idx + 1) revRest

/-- Embeds `Estimator.#getCells` (older variant of `cache.ts`): cells of a row,
looked up in the serial range first, then in the random ranges in reverse
order. -/
def Estimator.getCellsOld (e : Estimator) (row : Nat) : Except String (Option (List String)) :=
  match e.cache.serial.getRow (row : Int) with
  | some cells => .ok (some cells)
  | none => e.getCellsAux row 0 e.cache.random.reverse

/-- Embeds `Estimator.getCell` (older variant of `cache.ts`): cell value at a
row and column; throws on a column index out of bounds; returns the empty
string for a missing cell of a ragged row. -/
def Estimator.getCellOld (e : Estimator) (row column : Nat) : Except String (Option String) :=
  if e.cache.columnNames.length ≤ column then
    .error "Column index out of bounds"
  else
    match e.getCellsOld row with
    | .error m => .error m
    | .ok none => .ok none
    | .ok (some cells) => .ok (some (cells.getD column ""))

/-- Strict separation of two ranges: the first ends strictly before the
second starts (no overlap and no contiguity). -/
def Sep (a b : CSVRange) : Prop := a.nextByte < b.firstByte

instance : IsTrans CSVRange Sep :=
  ⟨fun _ b _ hab hbc => lt_of_lt_of_le hab (le_trans (Nat.le_add_right _ _) hbc.le)⟩

/-- Internal consistency of a cache: the serial range is anchored at byte
0, consecutive ranges are strictly separated, and every range ends within
the file. -/
def CacheInv (c : CSVCache) : Prop :=
  c.serial.firstByte = 0 ∧
  List.Chain' Sep (c.serial :: c.random) ∧
  ∀ r ∈ c.serial :: c.random, r.nextByte ≤ c.byteLength

theorem CSVRange.append_spec {r : CSVRange} {row : Row} {r' : CSVRange}
    (h : r.append row = .ok r') :
    row.byteOffset = r.firstByte + r.byteCount ∧
    r'.firstByte = r.firstByte ∧
    r'.nextByte = row.byteOffset + row.byteCount ∧
    r'.rowsCache.rows = r.rowsCache.rows ++ row.cells.toList := by
  unfold CSVRange.append at h
  split at h
  · simp at h
  · rename_i hg
    rw [not_ne_iff] at hg
    cases hc : row.cells with
    | some cells =>
      rw [hc] at h
      rw [Except.ok.injEq] at h
      subst h
      refine ⟨hg, rfl, ?_, by simp [RowsCache.append]⟩
      simp only [CSVRange.nextByte]
      omega
    | none =>
      rw [hc] at h
      rw [Except.ok.injEq] at h
      subst h
      refine ⟨hg, rfl, ?_, by simp⟩
      simp only [CSVRange.nextByte]
      omega

theorem CSVRange.append_isOk {r : CSVRange} {row : Row}
    (h : row.byteOffset = r.firstByte + r.byteCount) :
    ∃ r', r.append row = .ok r' := by
  unfold CSVRange.append
  rw [if_neg (not_ne_iff.mpr h)]
  cases row.cells <;> exact ⟨_, rfl⟩

theorem CSVRange.prepend_spec {r : CSVRange} {row : Row} {r' : CSVRange}
    (h : r.prepend row = .ok r') :
    row.byteOffset + row.byteCount = r.firstByte ∧
    r'.firstByte = row.byteOffset ∧
    r'.nextByte = r.nextByte ∧
    r'.rowsCache.rows = row.cells.toList ++ r.rowsCache.rows := by
  unfold CSVRange.prepend at h
  split at h
  · simp at h
  · rename_i hg
    rw [not_ne_iff] at hg
    cases hc : row.cells with
    | some cells =>
      rw [hc] at h
      rw [Except.ok.injEq] at h
      subst h
      refine ⟨hg, rfl, ?_, by simp [RowsCache.prepend]⟩
      simp only [CSVRange.nextByte]
      omega
    | none =>
      rw [hc] at h
      rw [Except.ok.injEq] at h
      subst h
      refine ⟨hg, rfl, ?_, by simp⟩
      simp only [CSVRange.nextByte]
      omega

theorem CSVRange.prepend_isOk {r : CSVRange} {row : Row}
    (h : row.byteOffset + row.byteCount = r.firstByte) :
    ∃ r', r.prepend row = .ok r' := by
  unfold CSVRange.prepend
  rw [if_neg (not_ne_iff.mpr h)]
  cases row.cells <;> exact ⟨_, rfl⟩

theorem CSVRange.mergeRange_spec {r following merged : CSVRange}
    (h : r.mergeRange following = .ok merged) :
    r.nextByte = following.firstByte ∧
    merged.firstByte = r.firstByte ∧
    merged.nextByte = following.nextByte ∧
    merged.rowsCache.rows = r.rowsCache.rows ++ following.rowsCache.rows := by
  unfold CSVRange.mergeRange at h
  split at h
  · simp at h
  · rename_i hg
    rw [not_ne_iff] at hg
    rw [Except.ok.injEq] at h
    subst h
    refine ⟨hg, rfl, ?_, by simp [RowsCache.merge]⟩
    simp only [CSVRange.nextByte] at hg ⊢
    omega

theorem CSVRange.mergeRange_isOk {r following : CSVRange}
    (h : r.nextByte = following.firstByte) :
    ∃ merged, r.mergeRange following = .ok merged :=
  ⟨_, by unfold CSVRange.mergeRange; rw [if_neg (not_ne_iff.mpr h)]⟩

theorem chain'_cons_of_nextByte_eq {x y : CSVRange} {l : List CSVRange}
    (h : List.Chain' Sep (x :: l)) (he : y.nextByte = x.nextByte) :
    List.Chain' Sep (y :: l) := by
  cases l with
  | nil => simp
  | cons z t =>
    rw [List.chain'_cons] at h ⊢
    exact ⟨by simp only [Sep, he]; exact h.1, h.2⟩

theorem storeAux_master (row : Row) :
    ∀ (rest : List CSVRange) (left : CSVRange),
      (∀ m l' r', storeAux left rest row = .error (m, l', r') → l' = left ∧ r' = rest) ∧
      (∀ l' r' b, storeAux left rest row = .ok (l', r', b) →
        l'.firstByte = left.firstByte ∧
        (b = false → l' = left ∧ r' = rest) ∧
        (0 < row.byteCount → b = true → storeAux l' r' row = .ok (l', r', false)) ∧
        (∀ L : Nat, row.byteOffset + row.byteCount ≤ L →
          (∀ x ∈ left :: rest, x.nextByte ≤ L) → List.Chain' Sep (left :: rest) →
          List.Chain' Sep (l' :: r') ∧ ∀ x ∈ l' :: r', x.nextByte ≤ L)) := by
  intro rest
  induction rest with
  | nil =>
    intro left
    by_cases h1 : row.byteOffset < left.firstByte
    · have hs : storeAux left [] row =
          .error ("Inconsistent state: row is before the left range", left, []) := by
        rw [storeAux]; simp [h1]
      refine ⟨fun m l' r' h => ?_, fun l' r' b h => ?_⟩
      · rw [hs] at h; simp only [Except.error.injEq, Prod.mk.injEq] at h
        exact ⟨h.2.1.symm, h.2.2.symm⟩
      · rw [hs] at h; simp at h
    by_cases h2 : row.byteOffset < left.nextByte
    · by_cases h3 : left.nextByte < row.byteOffset + row.byteCount
      · have hs : storeAux left [] row =
            .error ("Cannot store the row: the first bytes are already cached, but not the last ones.",
              left, []) := by
          rw [storeAux]; simp [h1, h2, h3]
        refine ⟨fun m l' r' h => ?_, fun l' r' b h => ?_⟩
        · rw [hs] at h; simp only [Except.error.injEq, Prod.mk.injEq] at h
          exact ⟨h.2.1.symm, h.2.2.symm⟩
        · rw [hs] at h; simp at h
      · have hs : storeAux left [] row = .ok (left, [], false) := by
          rw [storeAux]; simp [h1, h2, h3]
        refine ⟨fun m l' r' h => ?_, fun l' r' b h => ?_⟩
        · rw [hs] at h; simp at h
        · rw [hs] at h; simp only [Except.ok.injEq, Prod.mk.injEq] at h
          obtain ⟨rfl, rfl, rfl⟩ := h
          refine ⟨rfl, fun _ => ⟨rfl, rfl⟩, fun _ hb => by simp at hb,
            fun L _ hbound hchain => ⟨hchain, hbound⟩⟩
    by_cases h4 : row.byteOffset = left.nextByte
    · obtain ⟨left', happ⟩ := CSVRange.append_isOk
        (show row.byteOffset = left.firstByte + left.byteCount from h4)
      obtain ⟨hg, hfb, hnb, _⟩ := CSVRange.append_spec happ
      have hs : storeAux left [] row = .ok (left', [], true) := by
        rw [storeAux]; simp [h1, h2, if_pos h4, happ]
      refine ⟨fun m l' r' h => ?_, fun l' r' b h => ?_⟩
      · rw [hs] at h; simp at h
      · rw [hs] at h; simp only [Except.ok.injEq, Prod.mk.injEq] at h
        obtain ⟨rfl, rfl, rfl⟩ := h
        refine ⟨hfb, fun hb => by simp at hb, fun hcnt _ => ?_, fun L hL _ _ => ?_⟩
        · have g1 : ¬ row.byteOffset < left'.firstByte := by rw [hfb]; omega
          have g2 : row.byteOffset < left'.nextByte := by rw [hnb]; omega
          have g3 : ¬ left'.nextByte < row.byteOffset + row.byteCount := by rw [hnb]; omega
          rw [storeAux]; simp [g1, g2, g3]
        · refine ⟨by simp, fun x hx => ?_⟩
          simp only [List.mem_singleton] at hx
          subst hx; omega
    · obtain ⟨nr, hnapp⟩ := CSVRange.append_isOk
        (show row.byteOffset = (CSVRange.init row.byteOffset).firstByte +
          (CSVRange.init row.byteOffset).byteCount by simp [CSVRange.init])
      obtain ⟨_, nfb, nnb, _⟩ := CSVRange.append_spec hnapp
      simp only [CSVRange.init] at nfb
      have hs : storeAux left [] row = .ok (left, [nr], true) := by
        rw [storeAux]; simp [h1, h2, h4, hnapp]
      refine ⟨fun m l' r' h => ?_, fun l' r' b h => ?_⟩
      · rw [hs] at h; simp at h
      · rw [hs] at h; simp only [Except.ok.injEq, Prod.mk.injEq] at h
        obtain ⟨rfl, rfl, rfl⟩ := h
        refine ⟨rfl, fun hb => by simp at hb, fun hcnt _ => ?_, fun L hL hbound _ => ?_⟩
        · have gg1 : ¬ row.byteOffset < nr.firstByte := by rw [nfb]; omega
          have gg2 : row.byteOffset < nr.nextByte := by rw [nnb]; omega
          have gg3 : ¬ nr.nextByte < row.byteOffset + row.byteCount := by rw [nnb]; omega
          have hinner : storeAux nr [] row = .ok (nr, [], false) := by
            rw [storeAux]; simp [gg1, gg2, gg3]
          rw [storeAux, if_neg h1, if_neg h2]
          simp [nfb, hinner]
        · refine ⟨?_, fun x hx => ?_⟩
          · refine List.chain'_cons.mpr ⟨?_, by simp⟩
            simp only [Sep, nfb]; omega
          · rcases List.mem_cons.mp hx with rfl | hx
            · exact hbound x (by simp)
            · simp only [List.mem_singleton] at hx; subst hx; omega
  | cons right rest' ih =>
    intro left
    by_cases h1 : row.byteOffset < left.firstByte
    · have hs : storeAux left (right :: rest') row =
          .error ("Inconsistent state: row is before the left range", left, right :: rest') := by
        rw [storeAux]; simp [h1]
      refine ⟨fun m l' r' h => ?_, fun l' r' b h => ?_⟩
      · rw [hs] at h; simp only [Except.error.injEq, Prod.mk.injEq] at h
        exact ⟨h.2.1.symm, h.2.2.symm⟩
      · rw [hs] at h; simp at h
    by_cases h2 : row.byteOffset < left.nextByte
    · by_cases h3 : left.nextByte < row.byteOffset + row.byteCount
      · have hs : storeAux left (right :: rest') row =
            .error ("Cannot store the row: the first bytes are already cached, but not the last ones.",
              left, right :: rest') := by
          rw [storeAux]; simp [h1, h2, h3]
        refine ⟨fun m l' r' h => ?_, fun l' r' b h => ?_⟩
        · rw [hs] at h; simp only [Except.error.injEq, Prod.mk.injEq] at h
          exact ⟨h.2.1.symm, h.2.2.symm⟩
        · rw [hs] at h; simp at h
      · have hs : storeAux left (right :: rest') row = .ok (left, right :: rest', false) := by
          rw [storeAux]; simp [h1, h2, h3]
        refine ⟨fun m l' r' h => ?_, fun l' r' b h => ?_⟩
        · rw [hs] at h; simp at h
        · rw [hs] at h; simp only [Except.ok.injEq, Prod.mk.injEq] at h
          obtain ⟨rfl, rfl, rfl⟩ := h
          refine ⟨rfl, fun _ => ⟨rfl, rfl⟩, fun _ hb => by simp at hb,
            fun L _ hbound hchain => ⟨hchain, hbound⟩⟩
    by_cases h5 : right.firstByte ≤ row.byteOffset
    · obtain ⟨ihErr, ihOk⟩ := ih right
      cases hrec : storeAux right rest' row with
      | error e =>
        obtain ⟨m₂, l₂, r₂⟩ := e
        obtain ⟨he1, he2⟩ := ihErr m₂ l₂ r₂ hrec
        have hs : storeAux left (right :: rest') row =
            .error (m₂, left, l₂ :: r₂) := by
          rw [storeAux, if_neg h1, if_neg h2]
          simp [h5, hrec]
        refine ⟨fun m l' r' h => ?_, fun l' r' b h => ?_⟩
        · rw [hs] at h; simp only [Except.error.injEq, Prod.mk.injEq] at h
          refine ⟨h.2.1.symm, ?_⟩
          rw [← h.2.2, he1, he2]
        · rw [hs] at h; simp at h
      | ok res =>
        obtain ⟨l₂, r₂, b₂⟩ := res
        obtain ⟨ihFB, ihFalse, ihIdem, ihChain⟩ := ihOk l₂ r₂ b₂ hrec
        have hs : storeAux left (right :: rest') row = .ok (left, l₂ :: r₂, b₂) := by
          rw [storeAux, if_neg h1, if_neg h2]
          simp [h5, hrec]
        refine ⟨fun m l' r' h => ?_, fun l' r' b h => ?_⟩
        · rw [hs] at h; simp at h
        · rw [hs] at h; simp only [Except.ok.injEq, Prod.mk.injEq] at h
          obtain ⟨rfl, rfl, rfl⟩ := h
          refine ⟨rfl, ?_, ?_, ?_⟩
          · intro hb; obtain ⟨rfl, rfl⟩ := ihFalse hb; exact ⟨rfl, rfl⟩
          · intro hcnt hb
            have hinner := ihIdem hcnt hb
            have g5 : l₂.firstByte ≤ row.byteOffset := by rw [ihFB]; exact h5
            rw [storeAux, if_neg h1, if_neg h2]
            simp [g5, hinner]
          · intro L hL hbound hchain
            have hchain' : List.Chain' Sep (right :: rest') := hchain.tail
            have hbound' : ∀ x ∈ right :: rest', x.nextByte ≤ L :=
              fun x hx => hbound x (List.mem_cons_of_mem _ hx)
            obtain ⟨hc2, hb2⟩ := ihChain L hL hbound' hchain'
            refine ⟨List.chain'_cons.mpr ⟨?_, hc2⟩, fun x hx => ?_⟩
            · have hsep : Sep left right := (List.chain'_cons.mp hchain).1
              simp only [Sep, ihFB]; exact hsep
            · rcases List.mem_cons.mp hx with rfl | hx
              · exact hbound x (by simp)
              · exact hb2 x hx
    by_cases h6 : right.firstByte < row.byteOffset + row.byteCount
    · have hs : storeAux left (right :: rest') row =
          .error ("Cannot store the row: the first bytes are not cached, but other bytes are already cached.",
            left, right :: rest') := by
        rw [storeAux, if_neg h1, if_neg h2]
        simp [h5, h6]
      refine ⟨fun m l' r' h => ?_, fun l' r' b h => ?_⟩
      · rw [hs] at h; simp only [Except.error.injEq, Prod.mk.injEq] at h
        exact ⟨h.2.1.symm, h.2.2.symm⟩
      · rw [hs] at h; simp at h
    by_cases h4 : row.byteOffset = left.nextByte
    · obtain ⟨left', happ⟩ := CSVRange.append_isOk
        (show row.byteOffset = left.firstByte + left.byteCount from h4)
      obtain ⟨hg, hfb, hnb, _⟩ := CSVRange.append_spec happ
      by_cases hm : left'.nextByte = right.firstByte
      · obtain ⟨merged, hmerge⟩ := CSVRange.mergeRange_isOk hm
        obtain ⟨_, mfb, mnb, _⟩ := CSVRange.mergeRange_spec hmerge
        have hs : storeAux left (right :: rest') row = .ok (merged, rest', true) := by
          rw [storeAux, if_neg h1, if_neg h2]
          simp [h5, h6, if_pos h4, happ, if_pos hm, hmerge]
        refine ⟨fun m l' r' h => ?_, fun l' r' b h => ?_⟩
        · rw [hs] at h; simp at h
        · rw [hs] at h; simp only [Except.ok.injEq, Prod.mk.injEq] at h
          obtain ⟨rfl, rfl, rfl⟩ := h
          refine ⟨mfb.trans hfb, fun hb => by simp at hb, fun hcnt _ => ?_,
            fun L hL hbound hchain => ?_⟩
          · have g1 : ¬ row.byteOffset < merged.firstByte := by
              rw [mfb, hfb]; omega
            have g2 : row.byteOffset < merged.nextByte := by
              rw [mnb]; simp only [CSVRange.nextByte] at hm hnb ⊢; omega
            have g3 : ¬ merged.nextByte < row.byteOffset + row.byteCount := by
              rw [mnb]; simp only [CSVRange.nextByte] at hm hnb ⊢; omega
            rw [storeAux.eq_def]; simp [g1, g2, g3]
          · have hchain' : List.Chain' Sep (right :: rest') := hchain.tail
            refine ⟨chain'_cons_of_nextByte_eq hchain' mnb, fun x hx => ?_⟩
            rcases List.mem_cons.mp hx with rfl | hx
            · rw [mnb]; exact hbound right (by simp)
            · exact hbound x (by simp [hx])
      · have hs : storeAux left (right :: rest') row = .ok (left', right :: rest', true) := by
          rw [storeAux, if_neg h1, if_neg h2]
          simp [h5, h6, if_pos h4, happ, hm]
        refine ⟨fun m l' r' h => ?_, fun l' r' b h => ?_⟩
        · rw [hs] at h; simp at h
        · rw [hs] at h; simp only [Except.ok.injEq, Prod.mk.injEq] at h
          obtain ⟨rfl, rfl, rfl⟩ := h
          refine ⟨hfb, fun hb => by simp at hb, fun hcnt _ => ?_,
            fun L hL hbound hchain => ?_⟩
          · have g1 : ¬ row.byteOffset < left'.firstByte := by rw [hfb]; omega
            have g2 : row.byteOffset < left'.nextByte := by rw [hnb]; omega
            have g3 : ¬ left'.nextByte < row.byteOffset + row.byteCount := by rw [hnb]; omega
            rw [storeAux]; simp [g1, g2, g3]
          · refine ⟨List.chain'_cons.mpr ⟨?_, hchain.tail⟩, fun x hx => ?_⟩
            · simp only [Sep, hnb]; omega
            · rcases List.mem_cons.mp hx with rfl | hx
              · rw [hnb]; omega
              · exact hbound x (by simp [hx])
    by_cases h7 : row.byteOffset + row.byteCount = right.firstByte
    · obtain ⟨right', hprep⟩ := CSVRange.prepend_isOk h7
      obtain ⟨_, pfb, pnb, _⟩ := CSVRange.prepend_spec hprep
      have hs : storeAux left (right :: rest') row = .ok (left, right' :: rest', true) := by
        rw [storeAux, if_neg h1, if_neg h2]
        simp [h5, h6, h4, if_pos h7, hprep]
      refine ⟨fun m l' r' h => ?_, fun l' r' b h => ?_⟩
      · rw [hs] at h; simp at h
      · rw [hs] at h; simp only [Except.ok.injEq, Prod.mk.injEq] at h
        obtain ⟨rfl, rfl, rfl⟩ := h
        refine ⟨rfl, fun hb => by simp at hb, fun hcnt _ => ?_,
          fun L hL hbound hchain => ?_⟩
        · have gg1 : ¬ row.byteOffset < right'.firstByte := by rw [pfb]; omega
          have gg2 : row.byteOffset < right'.nextByte := by
            rw [pnb]; simp only [CSVRange.nextByte] at h7 ⊢; omega
          have gg3 : ¬ right'.nextByte < row.byteOffset + row.byteCount := by
            rw [pnb]; simp only [CSVRange.nextByte] at h7 ⊢; omega
          have hinner : storeAux right' rest' row = .ok (right', rest', false) := by
            rw [storeAux.eq_def]; simp [gg1, gg2, gg3]
          rw [storeAux, if_neg h1, if_neg h2]
          simp [pfb, hinner]
        · have hchain' : List.Chain' Sep (right :: rest') := hchain.tail
          refine ⟨List.chain'_cons.mpr ⟨?_, chain'_cons_of_nextByte_eq hchain' pnb⟩,
            fun x hx => ?_⟩
          · simp only [Sep, pfb]; omega
          · rcases List.mem_cons.mp hx with rfl | hx
            · exact hbound x (by simp)
            · rcases List.mem_cons.mp hx with rfl | hx
              · rw [pnb]; exact hbound right (by simp)
              · exact hbound x (by simp [hx])
    · obtain ⟨nr, hnapp⟩ := CSVRange.append_isOk
        (show row.byteOffset = (CSVRange.init row.byteOffset).firstByte +
          (CSVRange.init row.byteOffset).byteCount by simp [CSVRange.init])
      obtain ⟨_, nfb, nnb, _⟩ := CSVRange.append_spec hnapp
      simp only [CSVRange.init] at nfb
      have hs : storeAux left (right :: rest') row = .ok (left, nr :: right :: rest', true) := by
        rw [storeAux, if_neg h1, if_neg h2]
        simp [h5, h6, h4, h7, hnapp]
      refine ⟨fun m l' r' h => ?_, fun l' r' b h => ?_⟩
      · rw [hs] at h; simp at h
      · rw [hs] at h; simp only [Except.ok.injEq, Prod.mk.injEq] at h
        obtain ⟨rfl, rfl, rfl⟩ := h
        refine ⟨rfl, fun hb => by simp at hb, fun hcnt _ => ?_,
          fun L hL hbound hchain => ?_⟩
        · have gg1 : ¬ row.byteOffset < nr.firstByte := by rw [nfb]; omega
          have gg2 : row.byteOffset < nr.nextByte := by rw [nnb]; omega
          have gg3 : ¬ nr.nextByte < row.byteOffset + row.byteCount := by rw [nnb]; omega
          have hinner : storeAux nr (right :: rest') row = .ok (nr, right :: rest', false) := by
            rw [storeAux]; simp [gg1, gg2, gg3]
          rw [storeAux, if_neg h1, if_neg h2]
          simp [nfb, hinner]
        · refine ⟨List.chain'_cons.mpr ⟨?_, List.chain'_cons.mpr ⟨?_, hchain.tail⟩⟩,
            fun x hx => ?_⟩
          · simp only [Sep, nfb]; omega
          · simp only [Sep, nnb]; omega
          · rcases List.mem_cons.mp hx with rfl | hx
            · exact hbound x (by simp)
            · rcases List.mem_cons.mp hx with rfl | hx
              · rw [nnb]; omega
              · exact hbound x (by simp [hx])

theorem mkCSVCache_spec {columnNames : List String} {headerByteCount byteLength : Nat}
    {delimiter newline : String} {c : CSVCache}
    (h : mkCSVCache columnNames headerByteCount byteLength delimiter newline = .ok c) :
    c = { byteLength := byteLength, columnNames := columnNames,
          headerByteCount := headerByteCount,
          serial := { firstByte := 0, byteCount := headerByteCount,
                      rowsCache := { rows := [], byteCount := 0 } },
          random := [], delimiter := delimiter, newline := newline } ∧
    headerByteCount ≤ byteLength := by
  unfold mkCSVCache at h
  split at h
  · simp at h
  split at h
  · simp at h
  rename_i hne hle
  have happ : (CSVRange.init 0).append { byteOffset := 0, byteCount := headerByteCount, cells := none } =
      .ok { firstByte := 0, byteCount := headerByteCount, rowsCache := { rows := [], byteCount := 0 } } := by
    unfold CSVRange.append CSVRange.init
    simp
  rw [happ] at h
  rw [Except.ok.injEq] at h
  exact ⟨h.symm, by omega⟩

theorem reachable_cacheInv {c : CSVCache} (h : Reachable c) : CacheInv c := by
  induction h with
  | init cols hbc L d nl c hmk =>
    obtain ⟨rfl, hle⟩ := mkCSVCache_spec hmk
    refine ⟨rfl, by simp, ?_⟩
    intro r hr
    simp only [List.mem_singleton] at hr
    subst hr
    simp only [CSVRange.nextByte]
    omega
  | store c row c' b hre hst ih =>
    obtain ⟨hinv0, hchain, hbound⟩ := ih
    unfold CSVCache.store at hst
    split at hst
    · simp at hst
    rename_i hbl
    cases hsa : storeAux c.serial c.random row with
    | error e => rw [hsa] at hst; simp at hst
    | ok res =>
      obtain ⟨s', r', b'⟩ := res
      rw [hsa] at hst
      rw [Except.ok.injEq, Prod.mk.injEq] at hst
      obtain ⟨hc', _⟩ := hst
      obtain ⟨hfb', _, _, hchainp⟩ := (storeAux_master row c.random c.serial).2 s' r' b' hsa
      obtain ⟨hcn, hbn⟩ := hchainp c.byteLength (by omega) hbound hchain
      subst hc'
      exact ⟨by rw [show ({c with serial := s', random := r'} : CSVCache).serial = s' from rfl,
        hfb', hinv0], hcn, hbn⟩

theorem inv_complete_random_nil {c : CSVCache} (h : CacheInv c)
    (hc : c.serial.nextByte = c.byteLength) : c.random = [] := by
  obtain ⟨_, hchain, hbound⟩ := h
  cases hr : c.random with
  | nil => rfl
  | cons g t =>
    rw [hr] at hchain
    have hsep : Sep c.serial g := (List.chain'_cons.mp hchain).1
    have hg : g.nextByte ≤ c.byteLength := hbound g (by simp [hr])
    simp only [Sep, CSVRange.nextByte] at hsep hg hc
    omega

theorem completeE_of_inv {c : CSVCache} (h : CacheInv c) :
    c.completeE = .ok (c.serial.nextByte == c.byteLength) := by
  have hb := h.2.2 c.serial (by simp)
  unfold CSVCache.completeE
  rw [if_neg (by omega), if_neg ?_]
  rintro ⟨hcomp, hne⟩
  exact hne (inv_complete_random_nil h hcomp)

/-- C1.  Coverage invariant: every cache state reachable from the
constructor by successful `store` calls has its serial range anchored at
byte 0; the ranges (serial first, then the random ranges) are sorted by
`firstByte`, pairwise non-overlapping and never mutually contiguous (each
range ends strictly before the next starts); and if the cache is complete
(the serial range reaches `byteLength`) the random list is empty. -/
theorem C1_coverage_invariant (c : CSVCache) (h : Reachable c) :
    c.serial.firstByte = 0 ∧
    List.Pairwise (fun a b => a.firstByte < b.firstByte) (c.serial :: c.random) ∧
    List.Pairwise (fun a b => a.nextByte < b.firstByte) (c.serial :: c.random) ∧
    (c.serial.nextByte = c.byteLength → c.random = []) := by
  obtain ⟨h0, hchain, hbound⟩ := reachable_cacheInv h
  have hpw : List.Pairwise Sep (c.serial :: c.random) := List.chain'_iff_pairwise.mp hchain
  refine ⟨h0, ?_, hpw, fun hc => inv_complete_random_nil ⟨h0, hchain, hbound⟩ hc⟩
  exact hpw.imp (fun hab => by simp only [Sep, CSVRange.nextByte] at hab ⊢; omega)

/-- C8.  Atomicity of `store` on error: whenever `store` throws, the
cache state carried at the moment of the throw is exactly the state
before the call — every error check precedes every mutation. -/
theorem C8_store_atomic_on_error (c : CSVCache) (row : Row) (m : String) (c' : CSVCache)
    (h : c.store row = .error (m, c')) : c' = c := by
  unfold CSVCache.store at h
  split at h
  · rw [Except.error.injEq, Prod.mk.injEq] at h
    exact h.2.symm
  cases hsa : storeAux c.serial c.random row with
  | ok res =>
    obtain ⟨s', r', b⟩ := res
    rw [hsa] at h
    simp at h
  | error e =>
    obtain ⟨m₂, l', r'⟩ := e
    rw [hsa] at h
    obtain ⟨rfl, rfl⟩ := (storeAux_master row c.random c.serial).1 m₂ l' r' hsa
    rw [Except.error.injEq, Prod.mk.injEq] at h
    exact h.2.symm

/-- C9.  Frame property of `store`: every call, whether it stores the
row, reports a duplicate, or throws, leaves `byteLength`, `columnNames`,
`headerByteCount`, `delimiter` and `newline` unchanged; only the serial
range and the random range list can change. -/
theorem C9_store_frame (c : CSVCache) (row : Row) :
    (∀ c' b, c.store row = .ok (c', b) →
      c'.byteLength = c.byteLength ∧ c'.columnNames = c.columnNames ∧
      c'.headerByteCount = c.headerByteCount ∧ c'.delimiter = c.delimiter ∧
      c'.newline = c.newline) ∧
    (∀ m c', c.store row = .error (m, c') →
      c'.byteLength = c.byteLength ∧ c'.columnNames = c.columnNames ∧
      c'.headerByteCount = c.headerByteCount ∧ c'.delimiter = c.delimiter ∧
      c'.newline = c.newline) := by
  unfold CSVCache.store
  split
  · refine ⟨fun c' b h => by simp at h, fun m c' h => ?_⟩
    rw [Except.error.injEq, Prod.mk.injEq] at h
    rw [← h.2]
    exact ⟨rfl, rfl, rfl, rfl, rfl⟩
  cases hsa : storeAux c.serial c.random row with
  | ok res =>
    obtain ⟨s', r', b'⟩ := res
    refine ⟨fun c' b h => ?_, fun m c' h => by simp at h⟩
    rw [Except.ok.injEq, Prod.mk.injEq] at h
    rw [← h.1]
    exact ⟨rfl, rfl, rfl, rfl, rfl⟩
  | error e =>
    obtain ⟨m₂, l', r'⟩ := e
    refine ⟨fun c' b h => by simp at h, fun m c' h => ?_⟩
    rw [Except.error.injEq, Prod.mk.injEq] at h
    rw [← h.2]
    exact ⟨rfl, rfl, rfl, rfl, rfl⟩

/-- Concrete cache for witnesses: header `a,b,c\n` (6 bytes) of a 24-byte
file, as produced by the constructor. -/
def demoCache0 : CSVCache :=
  { byteLength := 24, columnNames := ["a", "b", "c"], headerByteCount := 6,
    serial := { firstByte := 0, byteCount := 6, rowsCache := { rows := [], byteCount := 0 } },
    random := [], delimiter := ",", newline := "\n" }

theorem demoCache0_mk : mkCSVCache ["a", "b", "c"] 6 24 "," "\n" = .ok demoCache0 := by rfl

theorem demoCache0_reachable : Reachable demoCache0 :=
  Reachable.init _ _ _ _ _ _ demoCache0_mk

def demoRow1 : Row := { byteOffset := 6, byteCount := 6, cells := some ["1", "2", "3"] }

def demoRow2 : Row := { byteOffset := 12, byteCount := 6, cells := some ["4", "5", "6"] }

def demoRow3 : Row := { byteOffset := 18, byteCount := 6, cells := some ["7", "8", "9"] }

/-- Cache after storing the first data row into `demoCache0`. -/
def demoCacheA : CSVCache :=
  { demoCache0 with
    serial := { firstByte := 0, byteCount := 12,
                rowsCache := { rows := [["1", "2", "3"]], byteCount := 6 } } }

theorem demoCacheA_store : demoCache0.store demoRow1 = .ok (demoCacheA, true) := by rfl

theorem demoCacheA_reachable : Reachable demoCacheA :=
  Reachable.store _ _ _ _ demoCache0_reachable demoCacheA_store

/-- Cache after additionally storing the third data row out of order:
one random range. -/
def demoCacheB : CSVCache :=
  { demoCacheA with
    random := [{ firstByte := 18, byteCount := 6,
                 rowsCache := { rows := [["7", "8", "9"]], byteCount := 6 } }] }

theorem demoCacheB_store : demoCacheA.store demoRow3 = .ok (demoCacheB, true) := by rfl

theorem demoCacheB_reachable : Reachable demoCacheB :=
  Reachable.store _ _ _ _ demoCacheA_reachable demoCacheB_store

/-- Complete cache after storing the middle row, which closes the gap and
merges the random range into the serial range. -/
def demoCacheC : CSVCache :=
  { demoCache0 with
    serial := { firstByte := 0, byteCount := 24,
                rowsCache := { rows := [["1", "2", "3"], ["4", "5", "6"], ["7", "8", "9"]],
                               byteCount := 18 } } }

theorem demoCacheC_store : demoCacheB.store demoRow2 = .ok (demoCacheC, true) := by rfl

theorem demoCacheC_reachable : Reachable demoCacheC :=
  Reachable.store _ _ _ _ demoCacheB_reachable demoCacheC_store

/-- Witness for C1 at a state with a live random range. -/
theorem C1_coverage_invariant_witness :
    demoCacheB.serial.firstByte = 0 ∧
    List.Pairwise (fun a b => a.firstByte < b.firstByte) (demoCacheB.serial :: demoCacheB.random) ∧
    List.Pairwise (fun a b => a.nextByte < b.firstByte) (demoCacheB.serial :: demoCacheB.random) ∧
    (demoCacheB.serial.nextByte = demoCacheB.byteLength → demoCacheB.random = []) :=
  C1_coverage_invariant demoCacheB demoCacheB_reachable

/-- Witness for C8 at an out-of-bounds store. -/
theorem C8_store_atomic_on_error_witness :
    demoCache0.store { byteOffset := 23, byteCount := 5, cells := none } =
      .error ("Cannot store the row: byte range is out of bounds", demoCache0) ∧
    demoCache0 = demoCache0 :=
  ⟨by rfl, C8_store_atomic_on_error demoCache0 { byteOffset := 23, byteCount := 5, cells := none }
    "Cannot store the row: byte range is out of bounds" demoCache0 (by rfl)⟩

/-- Witness for C9 at a successful store. -/
theorem C9_store_frame_witness :
    demoCacheA.byteLength = demoCache0.byteLength ∧
    demoCacheA.columnNames = demoCache0.columnNames ∧
    demoCacheA.headerByteCount = demoCache0.headerByteCount ∧
    demoCacheA.delimiter = demoCache0.delimiter ∧
    demoCacheA.newline = demoCache0.newline :=
  (C9_store_frame demoCache0 demoRow1).1 demoCacheA true demoCacheA_store

/-- A zero-byte row with cells, stored at the boundary of the serial
range of `demoCache0`. -/
def demoRowZ : Row := { byteOffset := 6, byteCount := 0, cells := some ["x"] }

/-- State after storing `demoRowZ` once. -/
def demoCacheZ1 : CSVCache :=
  { demoCache0 with
    serial := { firstByte := 0, byteCount := 6,
                rowsCache := { rows := [["x"]], byteCount := 0 } } }

/-- State after storing `demoRowZ` twice: the cells are duplicated. -/
def demoCacheZ2 : CSVCache :=
  { demoCache0 with
    serial := { firstByte := 0, byteCount := 6,
                rowsCache := { rows := [["x"], ["x"]], byteCount := 0 } } }

/-- C2 counterexample: on the reachable state `demoCache0`, storing the
zero-byte row `demoRowZ` succeeds with `true`, and storing exactly the
same arguments a second time again returns `true` and changes the state
(the cells are appended twice), contradicting the claimed idempotence. -/
theorem C2_counterexample :
    Reachable demoCache0 ∧
    demoCache0.store demoRowZ = .ok (demoCacheZ1, true) ∧
    demoCacheZ1.store demoRowZ = .ok (demoCacheZ2, true) ∧
    demoCacheZ2 ≠ demoCacheZ1 ∧
    demoCacheZ1.store demoRowZ ≠ .ok (demoCacheZ1, false) := by
  refine ⟨demoCache0_reachable, by rfl, by rfl, by decide, fun h => ?_⟩
  rw [show demoCacheZ1.store demoRowZ = .ok (demoCacheZ2, true) from rfl] at h
  rw [Except.ok.injEq, Prod.mk.injEq] at h
  simp at h

/-- C2 (amended).  Idempotence of `store` for rows with a positive byte
count: on any reachable cache state, if storing such a row succeeds and
returns `true`, storing exactly the same arguments a second time leaves
the cache unchanged and returns `false`. -/
theorem C2_store_idempotent (c : CSVCache) (row : Row) (hre : Reachable c)
    (hpos : 0 < row.byteCount) (c' : CSVCache)
    (h : c.store row = .ok (c', true)) : c'.store row = .ok (c', false) := by
  unfold CSVCache.store at h ⊢
  split at h
  · simp at h
  rename_i hbl
  cases hsa : storeAux c.serial c.random row with
  | error e =>
    obtain ⟨m₂, l', r'⟩ := e
    rw [hsa] at h
    simp at h
  | ok res =>
    obtain ⟨s', r', b⟩ := res
    rw [hsa] at h
    rw [Except.ok.injEq, Prod.mk.injEq] at h
    obtain ⟨hc', hb⟩ := h
    have hidem := ((storeAux_master row c.random c.serial).2 s' r' b hsa).2.2.1 hpos hb
    rw [← hc']
    rw [if_neg hbl, hidem]

/-- Witness for the amended C2: the duplicate store of a 6-byte row is a
no-op reporting `false`. -/
theorem C2_store_idempotent_witness :
    0 < demoRow1.byteCount ∧ demoCacheA.store demoRow1 = .ok (demoCacheA, false) :=
  ⟨by decide, C2_store_idempotent demoCache0 demoRow1 demoCache0_reachable (by decide)
    demoCacheA demoCacheA_store⟩

/-- C3.  Row-count derivation: `numRows` is the exact count of stored
rows when the average carries the `undefined` sentinel (set by `refresh`
once the cache is complete), and otherwise, for a committed nonzero
average, `round((byteLength - headerByteCount) / average)`. -/
theorem C3_numRows_derivation (e : Estimator) :
    (e.averageRowByteCount = none → e.numRows = (e.cache.computeNumCachedRows : Int)) ∧
    (∀ a : ℚ, e.averageRowByteCount = some a → a ≠ 0 →
      e.numRows = jround (((e.cache.byteLength : ℚ) - (e.cache.headerByteCount : ℚ)) / a)) := by
  constructor
  · intro h
    unfold Estimator.numRows
    rw [h]
  · intro a h ha
    unfold Estimator.numRows
    rw [h]
    simp [ha]

/-- Witness for C3: the exact branch on the complete demo cache, and the
estimating branch with a committed average of 6 bytes per row. -/
theorem C3_numRows_derivation_witness :
    ({ cache := demoCacheC, averageRowByteCount := none } : Estimator).numRows = 3 ∧
    ({ cache := demoCacheA, averageRowByteCount := some 6 } : Estimator).averageRowByteCount =
      some 6 ∧
    (6 : ℚ) ≠ 0 ∧
    ({ cache := demoCacheA, averageRowByteCount := some 6 } : Estimator).numRows =
      jround (((24 : ℚ) - 6) / 6) := by
  refine ⟨?_, rfl, by norm_num, ?_⟩
  · rw [(C3_numRows_derivation _).1 rfl]
    rfl
  · exact (C3_numRows_derivation _).2 6 rfl (by norm_num)

/-- C10.  Fresh-estimator edge case: a newly constructed estimator
reports `numRows = 0` and `isNumRowsEstimated = true` for every cache,
even a complete one holding stored rows, because the average is
initialised to zero and only `refresh()` can change it. -/
theorem C10_fresh_estimator (c : CSVCache) :
    (Estimator.init c).numRows = 0 ∧ (Estimator.init c).isNumRowsEstimated = true := by
  unfold Estimator.init Estimator.numRows Estimator.isNumRowsEstimated
  simp

/-- C4.  Damped refresh: on a consistent cache, `refresh` switches to the
exact sentinel and reports a change exactly when the cache is complete
and the average was not already the sentinel; on an incomplete cache with
no stored rows it reports no change; otherwise it recomputes the average
as total stored row bytes over total stored row count, commits it and
reports a change exactly when the previous average was zero or the
relative change exceeds 1%, and keeps the old average (reporting no
change) otherwise. -/
theorem C4_refresh_damping (e : Estimator) (hinv : CacheInv e.cache) :
    (e.cache.serial.nextByte = e.cache.byteLength →
      (e.averageRowByteCount = none → e.refresh = .ok (e, false)) ∧
      (∀ a : ℚ, e.averageRowByteCount = some a →
        e.refresh = .ok ({ e with averageRowByteCount := none }, true))) ∧
    (e.cache.serial.nextByte ≠ e.cache.byteLength →
      ∀ a : ℚ, e.averageRowByteCount = some a →
        (e.cache.computeNumCachedRows = 0 → e.refresh = .ok (e, false)) ∧
        (e.cache.computeNumCachedRows ≠ 0 →
          ∀ avg : ℚ,
            avg = (e.cache.computeNumCachedBytes : ℚ) / (e.cache.computeNumCachedRows : ℚ) →
            (a = 0 ∨ 1 / 100 < |avg - a| / a →
              e.refresh = .ok ({ e with averageRowByteCount := some avg }, true)) ∧
            (¬ (a = 0 ∨ 1 / 100 < |avg - a| / a) →
              e.refresh = .ok (e, false)))) := by
  have hc := completeE_of_inv hinv
  constructor
  · intro hcomp
    have hbeq : (e.cache.serial.nextByte == e.cache.byteLength) = true := by
      simp [hcomp]
    constructor
    · intro hnone
      unfold Estimator.refresh
      rw [hc, hbeq, hnone]
      rfl
    · intro a ha
      unfold Estimator.refresh
      rw [hc, hbeq, ha]
      rfl
  · intro hncomp a ha
    have hbeq : (e.cache.serial.nextByte == e.cache.byteLength) = false := by
      simp [hncomp]
    constructor
    · intro hrows
      unfold Estimator.refresh
      rw [hc, hbeq, ha]
      simp [hrows]
    · intro hrows avg havg
      subst havg
      constructor
      · intro hcond
        unfold Estimator.refresh
        rw [hc, hbeq, ha]
        simp only [Bool.false_eq_true, if_false, if_neg hrows]
        rw [if_pos hcond]
      · intro hcond
        unfold Estimator.refresh
        rw [hc, hbeq, ha]
        simp only [Bool.false_eq_true, if_false, if_neg hrows]
        rw [if_neg hcond]

/-- Witness for C4: the transition of the demo estimator to the exact
sentinel on completion reports a change, and a second refresh reports no
change. -/
theorem C4_refresh_damping_witness :
    ({ cache := demoCacheC, averageRowByteCount := some 6 } : Estimator).refresh =
      .ok ({ cache := demoCacheC, averageRowByteCount := none }, true) ∧
    ({ cache := demoCacheC, averageRowByteCount := none } : Estimator).refresh =
      .ok ({ cache := demoCacheC, averageRowByteCount := none }, false) :=
  ⟨((C4_refresh_damping { cache := demoCacheC, averageRowByteCount := some 6 }
      (reachable_cacheInv demoCacheC_reachable)).1 rfl).2 6 rfl,
   ((C4_refresh_damping { cache := demoCacheC, averageRowByteCount := none }
      (reachable_cacheInv demoCacheC_reachable)).1 rfl).1 rfl⟩

/-- C7.  Round-trip on completion: for a cache made complete by
successful stores, after a `refresh`, every valid row index `r` satisfies
`getRowNumber r = some r`, and `getCell` returns exactly the cells stored
for row `r` (the empty string for a missing cell of a ragged row). -/
theorem C7_roundtrip_on_completion (c : CSVCache) (hre : Reachable c)
    (hcomp : c.serial.nextByte = c.byteLength)
    (e₀ e : Estimator) (b : Bool) (hcache : e₀.cache = c)
    (href : e₀.refresh = .ok (e, b)) (r : Nat) (hr : (r : Int) < e.numRows) :
    e.getRowNumber r = some r ∧
    ∀ col : Nat, col < c.columnNames.length →
      e.getCellOld r col = .ok (some ((c.serial.rowsCache.rows.getD r []).getD col "")) := by
  have hinv : CacheInv c := reachable_cacheInv hre
  have hinv0 : CacheInv e₀.cache := by rw [hcache]; exact hinv
  have hc := completeE_of_inv hinv0
  have hbeq : (e₀.cache.serial.nextByte == e₀.cache.byteLength) = true := by
    simp [hcache, hcomp]
  have he : e.cache = c ∧ e.averageRowByteCount = none := by
    unfold Estimator.refresh at href
    rw [hc, hbeq] at href
    cases hav : e₀.averageRowByteCount with
    | none =>
      rw [hav] at href
      simp only [if_true] at href
      rw [Except.ok.injEq, Prod.mk.injEq] at href
      rw [← href.1]
      exact ⟨hcache, hav⟩
    | some a =>
      rw [hav] at href
      simp only [if_true] at href
      rw [Except.ok.injEq, Prod.mk.injEq] at href
      rw [← href.1]
      exact ⟨hcache, rfl⟩
  obtain ⟨hec, hea⟩ := he
  have hrand : c.random = [] := inv_complete_random_nil hinv hcomp
  have hnum : e.numRows = (c.serial.rowsCache.rows.length : Int) := by
    unfold Estimator.numRows
    rw [hea, hec]
    unfold CSVCache.computeNumCachedRows
    rw [hrand]
    simp [RowsCache.numRows]
  have hr' : r < c.serial.rowsCache.rows.length := by
    rw [hnum] at hr
    exact_mod_cast hr
  have hget : c.serial.getRow (r : Int) =
      some (c.serial.rowsCache.rows.getD r []) := by
    unfold CSVRange.getRow
    rw [if_neg (by omega : ¬ (r : Int) < 0), Int.toNat_natCast,
      List.get?_eq_getElem?, List.getD_eq_getElem?_getD,
      List.getElem?_eq_getElem hr']
    rfl
  have hcells : e.getCellsOld r = .ok (some (c.serial.rowsCache.rows.getD r [])) := by
    unfold Estimator.getCellsOld
    rw [hec, hget]
  constructor
  · unfold Estimator.getRowNumber
    rw [if_pos ⟨by omega, hr⟩]
    rfl
  · intro col hcol
    unfold Estimator.getCellOld
    rw [if_neg (not_le.mpr (by rw [hec]; exact hcol)), hcells]

/-- Witness for C7 on the complete demo cache: row 1, column 1 holds
`"5"`. -/
theorem C7_roundtrip_on_completion_witness :
    ({ cache := demoCacheC, averageRowByteCount := none } : Estimator).getRowNumber 1 =
      some 1 ∧
    ({ cache := demoCacheC, averageRowByteCount := none } : Estimator).getCellOld 1 1 =
      .ok (some "5") := by
  obtain ⟨h1, h2⟩ := C7_roundtrip_on_completion demoCacheC demoCacheC_reachable rfl
    { cache := demoCacheC, averageRowByteCount := some 6 }
    { cache := demoCacheC, averageRowByteCount := none } true rfl (by rfl) 1 (by decide)
  refine ⟨h1, ?_⟩
  rw [h2 1 (by decide)]
  rfl

theorem getStatusAux_stored (e : Estimator) (snap : Bool) (row : Nat)
    (leftRange : CSVRange) (fr : Int) (est : Bool) (rest : List CSVRange)
    (cells : List String)
    (hlt : (row : Int) < fr + (leftRange.rowsCache.numRows : Int))
    (hget : leftRange.getRow ((row : Int) - fr) = some cells) :
    e.getStatusAux snap row leftRange fr est rest =
      .ok (.stored leftRange cells fr est) := by
  unfold Estimator.getStatusAux
  rw [if_pos hlt, hget]

theorem getStatusAux_missing_exact (e : Estimator) (snap : Bool) (row : Nat)
    (leftRange : CSVRange) (fr : Int) (est : Bool) (rest : List CSVRange)
    (heq : (row : Int) = fr + (leftRange.rowsCache.numRows : Int)) :
    e.getStatusAux snap row leftRange fr est rest =
      .ok (.missing leftRange rest.head? (leftRange.nextByte : Int) false) := by
  unfold Estimator.getStatusAux
  rw [if_neg (by omega), if_pos heq]

theorem getStatusAux_missing_estimated (e : Estimator) (a : ℚ)
    (he : e.averageRowByteCount = some a) (ha : a ≠ 0) (snap : Bool) (row : Nat)
    (leftRange : CSVRange) (fr : Int) (est : Bool) (rest : List CSVRange)
    (hgt : fr + (leftRange.rowsCache.numRows : Int) < (row : Int))
    (hlt2 : (row : Int) <
      e.rightFirstRowOf snap (fr + (leftRange.rowsCache.numRows : Int)) leftRange a rest) :
    e.getStatusAux snap row leftRange fr est rest =
      .ok (.missing leftRange rest.head?
        ((leftRange.nextByte : Int) +
          jround (((row : ℚ) - ((fr + (leftRange.rowsCache.numRows : Int) : Int) : ℚ)) * a))
        true) := by
  unfold Estimator.getStatusAux
  rw [if_neg (by omega), if_neg (by omega)]
  split
  · rename_i heq
    rw [he] at heq
    cases heq
  · rename_i avg heq
    rw [he, Option.some.injEq] at heq
    subst heq
    rw [if_neg ha]
    simp only [hlt2, if_true]

theorem getStatusAux_continue (e : Estimator) (a : ℚ)
    (he : e.averageRowByteCount = some a) (ha : a ≠ 0) (snap : Bool) (row : Nat)
    (leftRange : CSVRange) (fr : Int) (est : Bool) (r : CSVRange) (rest' : List CSVRange)
    (hgt : fr + (leftRange.rowsCache.numRows : Int) < (row : Int))
    (hge : e.rightFirstRowOf snap (fr + (leftRange.rowsCache.numRows : Int)) leftRange a
      (r :: rest') ≤ (row : Int)) :
    e.getStatusAux snap row leftRange fr est (r :: rest') =
      e.getStatusAux snap row r
        (e.rightFirstRowOf snap (fr + (leftRange.rowsCache.numRows : Int)) leftRange a
          (r :: rest'))
        true rest' := by
  rw [Estimator.getStatusAux.eq_def]
  rw [if_neg (by omega), if_neg (by omega)]
  split
  · rename_i heq
    rw [he] at heq
    cases heq
  · rename_i avg heq
    rw [he, Option.some.injEq] at heq
    subst heq
    rw [if_neg ha]
    simp only [not_lt.mpr hge, if_false]

theorem getStatusAux_stored_err (e : Estimator) (snap : Bool) (row : Nat)
    (leftRange : CSVRange) (fr : Int) (est : Bool) (rest : List CSVRange)
    (hlt : (row : Int) < fr + (leftRange.rowsCache.numRows : Int))
    (hget : leftRange.getRow ((row : Int) - fr) = none) :
    e.getStatusAux snap row leftRange fr est rest =
      .error "Incoherent state: the range should contain at least one row" := by
  unfold Estimator.getStatusAux
  rw [if_pos hlt, hget]

theorem getStatusAux_nil_gap (e : Estimator) (a : ℚ)
    (he : e.averageRowByteCount = some a) (ha : a ≠ 0) (snap : Bool) (row : Nat)
    (leftRange : CSVRange) (fr : Int) (est : Bool)
    (hgt : fr + (leftRange.rowsCache.numRows : Int) < (row : Int))
    (hge : e.rightFirstRowOf snap (fr + (leftRange.rowsCache.numRows : Int)) leftRange a [] ≤
      (row : Int)) :
    e.getStatusAux snap row leftRange fr est [] =
      .error "Incoherent state: this point should not be reachable" := by
  unfold Estimator.getStatusAux
  rw [if_neg (by omega), if_neg (by omega)]
  split
  · rename_i heq
    rw [he] at heq
    cases heq
  · rename_i avg heq
    rw [he, Option.some.injEq] at heq
    subst heq
    rw [if_neg ha]
    simp only [not_lt.mpr hge, if_false]

theorem getStatusAux_ne_unknown (e : Estimator) (a : ℚ)
    (he : e.averageRowByteCount = some a) (ha : a ≠ 0) (snap : Bool) (row : Nat) :
    ∀ (rest : List CSVRange) (leftRange : CSVRange) (fr : Int) (est : Bool),
      e.getStatusAux snap row leftRange fr est rest ≠ .ok .unknown := by
  intro rest
  induction rest with
  | nil =>
    intro leftRange fr est
    by_cases hlt : (row : Int) < fr + (leftRange.rowsCache.numRows : Int)
    · cases hget : leftRange.getRow ((row : Int) - fr) with
      | none => rw [getStatusAux_stored_err e snap row leftRange fr est [] hlt hget]; simp
      | some cells => rw [getStatusAux_stored e snap row leftRange fr est [] cells hlt hget]; simp
    by_cases heq2 : (row : Int) = fr + (leftRange.rowsCache.numRows : Int)
    · rw [getStatusAux_missing_exact e snap row leftRange fr est [] heq2]; simp
    by_cases hlt2 : (row : Int) <
        e.rightFirstRowOf snap (fr + (leftRange.rowsCache.numRows : Int)) leftRange a []
    · rw [getStatusAux_missing_estimated e a he ha snap row leftRange fr est [] (by omega) hlt2]
      simp
    · rw [getStatusAux_nil_gap e a he ha snap row leftRange fr est (by omega) (by omega)]
      simp
  | cons r rest' ih =>
    intro leftRange fr est
    by_cases hlt : (row : Int) < fr + (leftRange.rowsCache.numRows : Int)
    · cases hget : leftRange.getRow ((row : Int) - fr) with
      | none =>
        rw [getStatusAux_stored_err e snap row leftRange fr est (r :: rest') hlt hget]; simp
      | some cells =>
        rw [getStatusAux_stored e snap row leftRange fr est (r :: rest') cells hlt hget]; simp
    by_cases heq2 : (row : Int) = fr + (leftRange.rowsCache.numRows : Int)
    · rw [getStatusAux_missing_exact e snap row leftRange fr est (r :: rest') heq2]; simp
    by_cases hlt2 : (row : Int) <
        e.rightFirstRowOf snap (fr + (leftRange.rowsCache.numRows : Int)) leftRange a (r :: rest')
    · rw [getStatusAux_missing_estimated e a he ha snap row leftRange fr est (r :: rest')
        (by omega) hlt2]
      simp
    · rw [getStatusAux_continue e a he ha snap row leftRange fr est r rest' (by omega) (by omega)]
      exact ih r _ true

/-- C5.  `getStatus` classification, for an estimator with a committed
positive average: walking the serial then random ranges as (left, right)
pairs, a row strictly inside the left range yields `stored` with that
range's cells; a row equal to the left range's next free row index yields
`missing` with the exact byte offset `left.nextByte`; a row in the gap
before the right range's estimated first row yields `missing` with the
estimated byte offset `left.nextByte + round((row - leftNextRow) * avg)`;
otherwise the walk continues to the next pair with the right range as the
new left; and `unknown` is never returned (it requires a zero average). -/
theorem C5_getStatus_classification (e : Estimator) (a : ℚ)
    (he : e.averageRowByteCount = some a) (ha : 0 < a) :
    (∀ (snap : Bool) (row : Nat) (leftRange : CSVRange) (fr : Int) (est : Bool)
       (rest : List CSVRange) (cells : List String),
      (row : Int) < fr + (leftRange.rowsCache.numRows : Int) →
      leftRange.getRow ((row : Int) - fr) = some cells →
      e.getStatusAux snap row leftRange fr est rest =
        .ok (.stored leftRange cells fr est)) ∧
    (∀ (snap : Bool) (row : Nat) (leftRange : CSVRange) (fr : Int) (est : Bool)
       (rest : List CSVRange),
      (row : Int) = fr + (leftRange.rowsCache.numRows : Int) →
      e.getStatusAux snap row leftRange fr est rest =
        .ok (.missing leftRange rest.head? (leftRange.nextByte : Int) false)) ∧
    (∀ (snap : Bool) (row : Nat) (leftRange : CSVRange) (fr : Int) (est : Bool)
       (rest : List CSVRange),
      fr + (leftRange.rowsCache.numRows : Int) < (row : Int) →
      (row : Int) <
        e.rightFirstRowOf snap (fr + (leftRange.rowsCache.numRows : Int)) leftRange a rest →
      e.getStatusAux snap row leftRange fr est rest =
        .ok (.missing leftRange rest.head?
          ((leftRange.nextByte : Int) +
            jround (((row : ℚ) - ((fr + (leftRange.rowsCache.numRows : Int) : Int) : ℚ)) * a))
          true)) ∧
    (∀ (snap : Bool) (row : Nat) (leftRange : CSVRange) (fr : Int) (est : Bool)
       (r : CSVRange) (rest' : List CSVRange),
      fr + (leftRange.rowsCache.numRows : Int) < (row : Int) →
      e.rightFirstRowOf snap (fr + (leftRange.rowsCache.numRows : Int)) leftRange a
        (r :: rest') ≤ (row : Int) →
      e.getStatusAux snap row leftRange fr est (r :: rest') =
        e.getStatusAux snap row r
          (e.rightFirstRowOf snap (fr + (leftRange.rowsCache.numRows : Int)) leftRange a
            (r :: rest'))
          true rest') ∧
    (∀ (snap : Bool) (row : Nat), e.getStatus row snap ≠ .ok .unknown) := by
  refine ⟨fun snap row leftRange fr est rest cells hlt hget =>
      getStatusAux_stored e snap row leftRange fr est rest cells hlt hget,
    fun snap row leftRange fr est rest heq =>
      getStatusAux_missing_exact e snap row leftRange fr est rest heq,
    fun snap row leftRange fr est rest hgt hlt2 =>
      getStatusAux_missing_estimated e a he (ne_of_gt ha) snap row leftRange fr est rest hgt hlt2,
    fun snap row leftRange fr est r rest' hgt hge =>
      getStatusAux_continue e a he (ne_of_gt ha) snap row leftRange fr est r rest' hgt hge,
    fun snap row h => ?_⟩
  unfold Estimator.getStatus at h
  split at h
  · simp at h
  · exact getStatusAux_ne_unknown e a he (ne_of_gt ha) snap row _ _ _ _ h

/-- C6.  EOF snapping: with the snap flag set, when the right range's
coverage reaches the file's last byte (within the one-byte buffer) and it
holds stored rows, the first-row index attributed to that range by the
`getStatus` walk is back-computed as the authoritative `numRows` minus
the range's own stored row count, both in the estimated-first-row
computation and as the first row carried into the next walk step. -/
theorem C6_eof_snapping (e : Estimator) (a : ℚ) (ha : a ≠ 0)
    (he : e.averageRowByteCount = some a)
    (r : CSVRange) (rest' : List CSVRange)
    (htrail : (e.cache.byteLength : Int) - 1 ≤ (r.nextByte : Int))
    (hrows : 0 < r.rowsCache.numRows) :
    (∀ (leftNextRow : Int) (leftRange : CSVRange),
      e.rightFirstRowOf true leftNextRow leftRange a (r :: rest') =
        e.numRows - (r.rowsCache.numRows : Int)) ∧
    (∀ (row : Nat) (leftRange : CSVRange) (fr : Int) (est : Bool),
      fr + (leftRange.rowsCache.numRows : Int) < (row : Int) →
      e.numRows - (r.rowsCache.numRows : Int) ≤ (row : Int) →
      e.getStatusAux true row leftRange fr est (r :: rest') =
        e.getStatusAux true row r (e.numRows - (r.rowsCache.numRows : Int)) true rest') := by
  have hfr : ∀ (leftNextRow : Int) (leftRange : CSVRange),
      e.rightFirstRowOf true leftNextRow leftRange a (r :: rest') =
        e.numRows - (r.rowsCache.numRows : Int) := by
    intro leftNextRow leftRange
    show (if true = true ∧ (e.cache.byteLength : Int) - 1 ≤ (r.nextByte : Int)
        ∧ 0 < r.rowsCache.numRows then
        e.numRows - (r.rowsCache.numRows : Int)
      else
        leftNextRow + jround (((r.firstByte : ℚ) - (leftRange.nextByte : ℚ)) / a)) =
      e.numRows - (r.rowsCache.numRows : Int)
    rw [if_pos ⟨rfl, htrail, hrows⟩]
  refine ⟨hfr, fun row leftRange fr est hgt hge => ?_⟩
  have := getStatusAux_continue e a he ha true row leftRange fr est r rest' hgt
    (by rw [hfr]; exact hge)
  rw [this, hfr]

/-- Witness for C5 on the demo estimator with average 6: row 1 sits just
after the serial range, yielding `missing` with the exact offset, and
`unknown` is never returned. -/
theorem C5_getStatus_classification_witness :
    ({ cache := demoCacheB, averageRowByteCount := some 6 } : Estimator).getStatusAux
        false 1 demoCacheB.serial 0 false demoCacheB.random =
      .ok (.missing demoCacheB.serial demoCacheB.random.head?
        (demoCacheB.serial.nextByte : Int) false) ∧
    ({ cache := demoCacheB, averageRowByteCount := some 6 } : Estimator).getStatus 1 false ≠
      .ok .unknown :=
  ⟨(C5_getStatus_classification { cache := demoCacheB, averageRowByteCount := some 6 } 6 rfl
      (by norm_num)).2.1 false 1 demoCacheB.serial 0 false demoCacheB.random (by decide),
   (C5_getStatus_classification { cache := demoCacheB, averageRowByteCount := some 6 } 6 rfl
      (by norm_num)).2.2.2.2 false 1⟩

/-- Witness for C6: the trailing demo range reaches the last byte, so its
attributed first row is `numRows - 1 = 2`. -/
theorem C6_eof_snapping_witness :
    ({ cache := demoCacheB, averageRowByteCount := some 6 } : Estimator).rightFirstRowOf
      true 1 demoCacheB.serial 6
      [{ firstByte := 18, byteCount := 6,
         rowsCache := { rows := [["7", "8", "9"]], byteCount := 6 } }] = 2 := by
  rw [(C6_eof_snapping { cache := demoCacheB, averageRowByteCount := some 6 } 6 (by norm_num)
    rfl { firstByte := 18, byteCount := 6,
          rowsCache := { rows := [["7", "8", "9"]], byteCount := 6 } } [] (by decide)
    (by decide)).1 1 demoCacheB.serial]
  norm_num [Estimator.numRows, jround, demoCacheB, demoCacheA, demoCache0, RowsCache.numRows]

/-- Witness for C10 on the complete demo cache with three stored rows. -/
theorem C10_fresh_estimator_witness :
    (Estimator.init demoCacheC).numRows = 0 ∧
    (Estimator.init demoCacheC).isNumRowsEstimated = true :=
  C10_fresh_estimator demoCacheC

end CsvTable
